import Mathlib

/-
Verification development for the grammy-questions question state machine.

The embedding follows src/src/question.ts (the Question builder),
src/src/helpers.ts (clearQuestions and checkContext, the per-event
decision procedure) and src/src/middleware.ts (ctx.ask, the
registration entry point).  Inbound events are modelled as a record of
the discriminant tags they carry plus their text; user-supplied
predicates are Boolean functions on events; side-effecting callbacks
(answer handler, pre-step, global onCancel) are modelled by presence
markers, and every invocation of one of them, every registry write and
every yield to the host chain is recorded in an action trace.
-/

/-- An inbound event: the set of discriminant tags it matches
(grammy filter queries it satisfies) and its text payload. -/
structure Ctx where
  tags : List String
  text : String
deriving Repr, DecidableEq

/-- Model of grammy ctx.has applied to a query or list of queries
(a single query is a one-element list). -/
def ctxHas (ctx : Ctx) (query : List String) : Bool :=
  query.any (fun t => ctx.tags.contains t)

/-- Model of grammy ctx.hasText against a list of exact text patterns. -/
def hasText (ctx : Ctx) (patterns : List String) : Bool :=
  patterns.contains ctx.text

/-- Repeat policy of a Question: the repeater field holds a number or
the string "infinity" in the source. -/
inductive Repeater where
  | fin (n : Nat)
  | inf
deriving Repr, DecidableEq

/-- The Question class of src/src/question.ts: the public query and the
two mutable progress fields, plus the six private configuration
fields set by the chainable builder methods. -/
structure Question where
  query : List String
  implementedDoBefore : Bool
  implementedHandler : Nat
  _handler : Option Unit
  _doBefore : Option Unit
  _repeater : Option Repeater
  _cancelFunc : Option (Ctx → Bool)
  _cancelRepeater : Option (Ctx → Bool)
  _filter : Option (Ctx → Bool)

/-- Constructor of Question: query required, implementedDoBefore
defaults to false, implementedHandler to 0, all private fields unset. -/
def Question.new (query : List String) : Question :=
  { query := query
    implementedDoBefore := false
    implementedHandler := 0
    _handler := none
    _doBefore := none
    _repeater := none
    _cancelFunc := none
    _cancelRepeater := none
    _filter := none }

/-- Builder method thenDo: sets the handler, returns the instance. -/
def Question.thenDo (q : Question) (func : Option Unit) : Question :=
  { q with _handler := func }

/-- Builder method doBefore: sets the pre-step, returns the instance. -/
def Question.doBefore (q : Question) (func : Option Unit) : Question :=
  { q with _doBefore := func }

/-- Builder method repeat: sets the repeater to a finite count. -/
def Question.repeat (q : Question) (n : Nat) : Question :=
  { q with _repeater := some (Repeater.fin n) }

/-- Builder method filter: sets the validation filter. -/
def Question.filter (q : Question) (func : Ctx → Bool) : Question :=
  { q with _filter := some func }

/-- Builder method cancel: sets the question-level cancel predicate. -/
def Question.cancel (q : Question) (func : Ctx → Bool) : Question :=
  { q with _cancelFunc := some func }

/-- Builder method repeatUntil: sets the repeater to "infinity" and
installs the repeat-until predicate as cancelRepeater. -/
def Question.repeatUntil (q : Question) (func : Ctx → Bool) : Question :=
  { q with _repeater := some Repeater.inf, _cancelRepeater := some func }

/-- Global cancel configuration, the cancel field of QuestionsOptions
in src/types.ts. -/
structure CancelOpts where
  has : List String
  hears : Option (List String)
  filter : Option (Ctx → Bool)
  onCancel : Option Unit

/-- QuestionsOptions of src/types.ts: the global cancel rule, the
storage-key override and the global admission filter. -/
structure QuestionsOptions where
  cancel : Option CancelOpts
  getStorageKey : Option (Ctx → String)
  filter : Option (Ctx → Bool)

/-- Evaluation of an optional predicate the way the source guards it
with a truthiness check: p && p(ctx). -/
def predFires (p : Option (Ctx → Bool)) (ctx : Ctx) : Bool :=
  match p with
  | some f => f ctx
  | none => false

/-- Evaluation of the validation filter: filter ? filter(ctx) : true. -/
def filterPasses (p : Option (Ctx → Bool)) (ctx : Ctx) : Bool :=
  match p with
  | some f => f ctx
  | none => true

/-- Observable actions of one decision-procedure or registration call:
registry writes at the conversation key, callback invocations and the
yield to the host middleware chain. -/
inductive Act where
  | deleteKey
  | setKey
  | onCancelRun
  | doBeforeRun
  | handlerRun
  | nextRun
deriving Repr, DecidableEq

/-- Result of one decision-procedure or registration call: whether a
TypeError was thrown, the final registry entry at the conversation key,
and the ordered trace of observable actions. -/
structure CheckResult where
  threw : Bool
  entry : Option (List Question)
  trace : List Act

/-- clearQuestions of src/src/helpers.ts: on a one-element list the key
is deleted, otherwise the head is shifted off and the rest re-stored.
Returns the new entry value and the registry action performed. -/
def clearQuestions (questions : List Question) : Option (List Question) × List Act :=
  if questions.length == 1 then (none, [Act.deleteKey])
  else (some questions.tail, [Act.setKey])

/-- The inner condition of the global cancel check of checkContext:
options?.cancel is set, the event matches its has query, and the
hears/filter/neither disjunction holds. -/
def globalCancelCond (ctx : Ctx) (options : Option QuestionsOptions) : Bool :=
  match options.bind (fun o => o.cancel) with
  | none => false
  | some cancel =>
    ctxHas ctx cancel.has &&
      ((match cancel.hears with
        | some hs => hasText ctx hs
        | none => false) ||
       predFires cancel.filter ctx ||
       (cancel.hears.isNone && cancel.filter.isNone))

/-- The answer tail of checkContext (lines 67-74 of helpers.ts): invoke
the handler (throwing if it is absent), increment implementedHandler,
and retire the head via clearQuestions when the repeater is finite and
the count has reached it.  preActs carries the doBeforeRun action when
the lazy pre-step just ran. -/
def processAnswer (question1 : Question) (rest : List Question) (preActs : List Act) : CheckResult :=
  match question1._handler with
  | none =>
    { threw := true, entry := some (question1 :: rest), trace := preActs }
  | some _ =>
    let question2 := { question1 with implementedHandler := question1.implementedHandler + 1 }
    match question2._repeater.getD (Repeater.fin 1) with
    | Repeater.inf =>
      { threw := false, entry := some (question2 :: rest), trace := preActs ++ [Act.handlerRun] }
    | Repeater.fin n =>
      if n ≤ question2.implementedHandler then
        { threw := false
          entry := (clearQuestions (question2 :: rest)).1
          trace := preActs ++ [Act.handlerRun] ++ (clearQuestions (question2 :: rest)).2 }
      else
        { threw := false, entry := some (question2 :: rest), trace := preActs ++ [Act.handlerRun] }

/-- The head-question part of checkContext (lines 39-75 of helpers.ts):
matcher check, question-level cancel, repeat-until, validation filter,
lazy pre-step, then the answer tail. -/
def checkHead (ctx : Ctx) (question : Question) (rest : List Question) : CheckResult :=
  if ctxHas ctx question.query then
    if predFires question._cancelFunc ctx then
      { threw := false, entry := none, trace := [Act.deleteKey] }
    else if predFires question._cancelRepeater ctx then
      { threw := false
        entry := (clearQuestions (question :: rest)).1
        trace := (clearQuestions (question :: rest)).2 }
    else if filterPasses question._filter ctx then
      if !question.implementedDoBefore && question._doBefore.isSome then
        processAnswer { question with implementedDoBefore := true } rest [Act.doBeforeRun]
      else
        processAnswer question rest []
    else
      { threw := false, entry := some (question :: rest), trace := [Act.nextRun] }
  else
    { threw := false, entry := some (question :: rest), trace := [Act.nextRun] }

/-- checkContext of src/src/helpers.ts, projected to the conversation
key being processed: questions is the registry entry at the key, the
result carries the entry after the call. -/
def checkContext (ctx : Ctx) (questions : Option (List Question)) (options : Option QuestionsOptions) : CheckResult :=
  if questions.isSome && globalCancelCond ctx options then
    { threw := false
      entry := none
      trace := Act.deleteKey ::
        (if ((options.bind (fun o => o.cancel)).bind (fun c => c.onCancel)).isSome then
          [Act.onCancelRun] else []) }
  else
    match questions with
    | some (question :: rest) => checkHead ctx question rest
    | some [] => { threw := true, entry := some [], trace := [] }
    | none => { threw := false, entry := none, trace := [Act.nextRun] }

/-- ctx.ask of src/src/middleware.ts, projected to the key: normalised
list of questions in, old entry at the key in.  On the empty list the
access list[0].get throws before the registry is touched; otherwise the
first question's doBefore runs unconditionally when present, its flag
is set, and the list is installed. -/
def ask (list : List Question) (old : Option (List Question)) : CheckResult :=
  match list with
  | [] => { threw := true, entry := old, trace := [] }
  | firstQuestion :: rest =>
    if firstQuestion._doBefore.isSome then
      { threw := false
        entry := some ({ firstQuestion with implementedDoBefore := true } :: rest)
        trace := [Act.doBeforeRun, Act.setKey] }
    else
      { threw := false, entry := some (firstQuestion :: rest), trace := [Act.setKey] }

/-- Folding checkContext over a sequence of inbound events, threading
the registry entry and concatenating the traces. -/
def runEvents (options : Option QuestionsOptions) : Option (List Question) → List Ctx → Option (List Question) × List Act
  | entry, [] => (entry, [])
  | entry, e :: es =>
    let r := checkContext e entry options
    let rst := runEvents options r.entry es
    (rst.1, r.trace ++ rst.2)

/-- A builder method call, for reasoning about arbitrary chains of
setter invocations on a Question. -/
inductive BuilderCall where
  | thenDo (func : Option Unit)
  | doBefore (func : Option Unit)
  | repeatN (n : Nat)
  | filter (func : Ctx → Bool)
  | cancel (func : Ctx → Bool)
  | repeatUntil (func : Ctx → Bool)

/-- Application of one builder call. -/
def applyCall (q : Question) (c : BuilderCall) : Question :=
  match c with
  | .thenDo f => q.thenDo f
  | .doBefore f => q.doBefore f
  | .repeatN n => q.repeat n
  | .filter f => q.filter f
  | .cancel f => q.cancel f
  | .repeatUntil f => q.repeatUntil f

/-- Application of a chain of builder calls, left to right. -/
def applyCalls (q : Question) (cs : List BuilderCall) : Question :=
  cs.foldl applyCall q

/-- Two Questions agree on every configuration field (only the two
mutable progress fields may differ). -/
def sameConfig (a b : Question) : Prop :=
  a.query = b.query ∧ a._handler = b._handler ∧ a._doBefore = b._doBefore ∧
  a._repeater = b._repeater ∧ a._cancelFunc = b._cancelFunc ∧
  a._cancelRepeater = b._cancelRepeater ∧ a._filter = b._filter

/-- An inbound event is a successful (filtered-in, non-cancelled)
matching answer for a head Question: the global cancel rule does not
fire, the event matches the query, neither cancel predicate fires and
the validation filter passes.  These are exactly the branch conditions
of checkContext on the consuming path. -/
def successfulFor (options : Option QuestionsOptions) (q : Question) (e : Ctx) : Prop :=
  globalCancelCond e options = false ∧
  ctxHas e q.query = true ∧
  predFires q._cancelFunc e = false ∧
  predFires q._cancelRepeater e = false ∧
  filterPasses q._filter e = true

instance (options : Option QuestionsOptions) (q : Question) (e : Ctx) :
    Decidable (successfulFor options q e) := by
  unfold successfulFor; infer_instance

/-- Concrete fixture for claim C1: a pending question with a handler. -/
def qC1 : Question := (Question.new ["message"]).thenDo (some ())

/-- Concrete fixture for claim C1: global options whose admission filter
rejects every event. -/
def oC1 : QuestionsOptions :=
  { cancel := none, getStorageKey := none, filter := some (fun _ => false) }

/-- Concrete fixture for claim C1: an event matching the pending question. -/
def eC1 : Ctx := { tags := ["message"], text := "hello" }

/-- Concrete fixture for claim C2: a question answered twice before retiring. -/
def qC2 : Question := ((Question.new ["text"]).thenDo (some ())).repeat 2

/-- Concrete fixture for claim C2: a matching event. -/
def eC2a : Ctx := { tags := ["text"], text := "first" }

/-- Concrete fixture for claim C2: a second matching event. -/
def eC2b : Ctx := { tags := ["text"], text := "second" }

/-- Concrete fixture for claim C3: an infinite-mode question stopping on done. -/
def qC3 : Question :=
  ((Question.new ["text"]).thenDo (some ())).repeatUntil (fun c => c.text == "done")

/-- Concrete fixture for claim C3: the stopping event. -/
def eC3done : Ctx := { tags := ["text"], text := "done" }

/-- Concrete fixture for claim C3: a non-stopping matching event. -/
def eC3more : Ctx := { tags := ["text"], text := "more" }

/-- Concrete fixture for claim C4: a global cancel rule with neither hears
nor filter, with an onCancel callback. -/
def cC4 : CancelOpts :=
  { has := ["text"], hears := none, filter := none, onCancel := some () }

/-- Concrete fixture for claim C4: options carrying the cancel rule. -/
def oC4 : QuestionsOptions :=
  { cancel := some cC4, getStorageKey := none, filter := none }

/-- Concrete fixture for claim C4: a pending question. -/
def qC4 : Question := (Question.new ["text"]).thenDo (some ())

/-- Concrete fixture for claim C4: an event matching the cancel rule. -/
def eC4 : Ctx := { tags := ["text"], text := "whatever" }

/-- Concrete fixture for claim C5: a head question with a cancel predicate. -/
def qC5 : Question :=
  ((Question.new ["text"]).thenDo (some ())).cancel (fun c => c.text == "stop")

/-- Concrete fixture for claim C5: a second queued question behind the head. -/
def qC5b : Question := ((Question.new ["text"]).thenDo (some ())).doBefore (some ())

/-- Concrete fixture for claim C5: an event firing the cancel predicate. -/
def eC5 : Ctx := { tags := ["text"], text := "stop" }

/-- Concrete fixture for claim C6: a head question whose validation filter
accepts only the text yes. -/
def qC6 : Question :=
  ((Question.new ["text"]).thenDo (some ())).filter (fun c => c.text == "yes")

/-- Concrete fixture for claim C6: a matching event the filter rejects. -/
def eC6 : Ctx := { tags := ["text"], text := "no" }

/-- Concrete fixture for claim C7: a question with both a pre-step and a
handler. -/
def qC7 : Question := ((Question.new ["text"]).thenDo (some ())).doBefore (some ())

/-- Concrete fixture for claim C8: a question with no handler configured. -/
def qC8 : Question := Question.new ["text"]

/-- Concrete fixture for claim C8: a matching event. -/
def eC8 : Ctx := { tags := ["text"], text := "answer" }

/-- Concrete fixture for claim C9: repeat 2 called after repeatUntil, leaving
a finite repeater with a leftover repeat-until predicate. -/
def qC9 : Question :=
  (((Question.new ["text"]).thenDo (some ())).repeatUntil (fun c => c.text == "stop")).repeat 2

/-- Concrete fixture for claim C9: an event firing the leftover predicate. -/
def eC9 : Ctx := { tags := ["text"], text := "stop" }

/-- Concrete fixture for claim C9 witness: a plain finite-mode question. -/
def qC9b : Question := ((Question.new ["text"]).thenDo (some ())).repeat 2

/-- Concrete fixture for claim C9 witness: an ordinary matching event. -/
def eC9b : Ctx := { tags := ["text"], text := "go" }

lemma clearQuestions_cons (q : Question) (rest : List Question) :
    clearQuestions (q :: rest) =
      (if rest.isEmpty then (none, [Act.deleteKey]) else (some rest, [Act.setKey])) := by
  cases rest <;> simp [clearQuestions]

lemma checkContext_none (e : Ctx) (options : Option QuestionsOptions) :
    checkContext e none options =
      { threw := false, entry := none, trace := [Act.nextRun] } := by
  simp [checkContext]

lemma checkContext_noGlobal (e : Ctx) (question : Question) (rest : List Question)
    (options : Option QuestionsOptions) (h : globalCancelCond e options = false) :
    checkContext e (some (question :: rest)) options = checkHead e question rest := by
  simp [checkContext, h]

lemma checkContext_global (e : Ctx) (qs : List Question)
    (options : Option QuestionsOptions) (h : globalCancelCond e options = true) :
    checkContext e (some qs) options =
      { threw := false
        entry := none
        trace := Act.deleteKey ::
          (if ((options.bind (fun o => o.cancel)).bind (fun c => c.onCancel)).isSome then
            [Act.onCancelRun] else []) } := by
  simp [checkContext, h]

lemma checkHead_nomatch (e : Ctx) (question : Question) (rest : List Question)
    (h : ctxHas e question.query = false) :
    checkHead e question rest =
      { threw := false, entry := some (question :: rest), trace := [Act.nextRun] } := by
  simp [checkHead, h]

lemma checkHead_cancelFunc (e : Ctx) (question : Question) (rest : List Question)
    (h1 : ctxHas e question.query = true)
    (h2 : predFires question._cancelFunc e = true) :
    checkHead e question rest =
      { threw := false, entry := none, trace := [Act.deleteKey] } := by
  simp [checkHead, h1, h2]

lemma checkHead_cancelRepeater (e : Ctx) (question : Question) (rest : List Question)
    (h1 : ctxHas e question.query = true)
    (h2 : predFires question._cancelFunc e = false)
    (h3 : predFires question._cancelRepeater e = true) :
    checkHead e question rest =
      { threw := false
        entry := (clearQuestions (question :: rest)).1
        trace := (clearQuestions (question :: rest)).2 } := by
  simp [checkHead, h1, h2, h3]

lemma checkHead_filterFail (e : Ctx) (question : Question) (rest : List Question)
    (h1 : ctxHas e question.query = true)
    (h2 : predFires question._cancelFunc e = false)
    (h3 : predFires question._cancelRepeater e = false)
    (h4 : filterPasses question._filter e = false) :
    checkHead e question rest =
      { threw := false, entry := some (question :: rest), trace := [Act.nextRun] } := by
  simp [checkHead, h1, h2, h3, h4]

lemma checkHead_pass (e : Ctx) (question : Question) (rest : List Question)
    (h1 : ctxHas e question.query = true)
    (h2 : predFires question._cancelFunc e = false)
    (h3 : predFires question._cancelRepeater e = false)
    (h4 : filterPasses question._filter e = true) :
    checkHead e question rest =
      (if !question.implementedDoBefore && question._doBefore.isSome then
        processAnswer { question with implementedDoBefore := true } rest [Act.doBeforeRun]
      else
        processAnswer question rest []) := by
  simp [checkHead, h1, h2, h3, h4]

lemma processAnswer_noHandler (question1 : Question) (rest : List Question)
    (preActs : List Act) (h : question1._handler = none) :
    processAnswer question1 rest preActs =
      { threw := true, entry := some (question1 :: rest), trace := preActs } := by
  simp [processAnswer, h]

lemma processAnswer_inf (question1 : Question) (rest : List Question)
    (preActs : List Act) (hh : question1._handler = some ())
    (hr : question1._repeater = some Repeater.inf) :
    processAnswer question1 rest preActs =
      { threw := false
        entry := some ({ question1 with implementedHandler := question1.implementedHandler + 1 } :: rest)
        trace := preActs ++ [Act.handlerRun] } := by
  simp [processAnswer, hh, hr]

lemma processAnswer_fin_stay (question1 : Question) (rest : List Question)
    (preActs : List Act) (n : Nat) (hh : question1._handler = some ())
    (hr : question1._repeater = some (Repeater.fin n))
    (hlt : question1.implementedHandler + 1 < n) :
    processAnswer question1 rest preActs =
      { threw := false
        entry := some ({ question1 with implementedHandler := question1.implementedHandler + 1 } :: rest)
        trace := preActs ++ [Act.handlerRun] } := by
  simp only [processAnswer, hh, hr, Option.getD_some]
  rw [if_neg (by omega)]

lemma processAnswer_fin_retire (question1 : Question) (rest : List Question)
    (preActs : List Act) (n : Nat) (hh : question1._handler = some ())
    (hr : question1._repeater = some (Repeater.fin n))
    (hge : n ≤ question1.implementedHandler + 1) :
    processAnswer question1 rest preActs =
      { threw := false
        entry := (clearQuestions ({ question1 with implementedHandler := question1.implementedHandler + 1 } :: rest)).1
        trace := preActs ++ [Act.handlerRun] ++
          (clearQuestions ({ question1 with implementedHandler := question1.implementedHandler + 1 } :: rest)).2 } := by
  simp only [processAnswer, hh, hr, Option.getD_some]
  rw [if_pos (by omega)]

lemma processAnswer_default (question1 : Question) (rest : List Question)
    (preActs : List Act) (hh : question1._handler = some ())
    (hr : question1._repeater = none) :
    processAnswer question1 rest preActs =
      { threw := false
        entry := (clearQuestions ({ question1 with implementedHandler := question1.implementedHandler + 1 } :: rest)).1
        trace := preActs ++ [Act.handlerRun] ++
          (clearQuestions ({ question1 with implementedHandler := question1.implementedHandler + 1 } :: rest)).2 } := by
  simp only [processAnswer, hh, hr, Option.getD_none]
  rw [if_pos (by omega)]

lemma sameConfig_refl (q : Question) : sameConfig q q :=
  ⟨rfl, rfl, rfl, rfl, rfl, rfl, rfl⟩

lemma sameConfig_trans {a b c : Question} (h1 : sameConfig a b) (h2 : sameConfig b c) :
    sameConfig a c := by
  obtain ⟨x1, x2, x3, x4, x5, x6, x7⟩ := h1
  obtain ⟨y1, y2, y3, y4, y5, y6, y7⟩ := h2
  exact ⟨x1.trans y1, x2.trans y2, x3.trans y3, x4.trans y4, x5.trans y5, x6.trans y6, x7.trans y7⟩

lemma sameConfig_setFlag (q : Question) (b : Bool) :
    sameConfig { q with implementedDoBefore := b } q :=
  ⟨rfl, rfl, rfl, rfl, rfl, rfl, rfl⟩

lemma sameConfig_setCount (q : Question) (k : Nat) :
    sameConfig { q with implementedHandler := k } q :=
  ⟨rfl, rfl, rfl, rfl, rfl, rfl, rfl⟩

lemma successfulFor_congr {p q : Question} (options : Option QuestionsOptions) (e : Ctx)
    (h : sameConfig p q) (hs : successfulFor options q e) : successfulFor options p e := by
  obtain ⟨h1, h2, h3, h4, h5, h6, h7⟩ := h
  obtain ⟨g1, g2, g3, g4, g5⟩ := hs
  refine ⟨g1, ?_, ?_, ?_, ?_⟩
  · rw [h1]; exact g2
  · rw [h5]; exact g3
  · rw [h6]; exact g4
  · rw [h7]; exact g5

lemma runEvents_nil (options : Option QuestionsOptions) (entry : Option (List Question)) :
    runEvents options entry [] = (entry, []) := rfl

lemma runEvents_cons (options : Option QuestionsOptions) (entry : Option (List Question))
    (e : Ctx) (es : List Ctx) :
    runEvents options entry (e :: es) =
      ((runEvents options (checkContext e entry options).entry es).1,
       (checkContext e entry options).trace ++
         (runEvents options (checkContext e entry options).entry es).2) := rfl

lemma step_stay (options : Option QuestionsOptions) (e : Ctx) (q : Question)
    (rest : List Question) (n : Nat)
    (hs : successfulFor options q e)
    (hh : q._handler = some ())
    (hr : q._repeater = some (Repeater.fin n))
    (hlt1 : q.implementedHandler + 1 < n) :
    ∃ q2, (checkContext e (some (q :: rest)) options).entry = some (q2 :: rest) ∧
      sameConfig q2 q ∧ q2.implementedHandler = q.implementedHandler + 1 := by
  obtain ⟨hg, hm, hcf, hcr, hf⟩ := hs
  rw [checkContext_noGlobal e q rest options hg, checkHead_pass e q rest hm hcf hcr hf]
  by_cases hc : (!q.implementedDoBefore && q._doBefore.isSome) = true
  · rw [if_pos hc, processAnswer_fin_stay _ _ _ n (by simpa using hh) (by simpa using hr)
      (by simpa using hlt1)]
    exact ⟨_, rfl, sameConfig_trans (sameConfig_setCount _ _) (sameConfig_setFlag _ _), by simp⟩
  · rw [if_neg hc, processAnswer_fin_stay _ _ _ n hh hr hlt1]
    exact ⟨_, rfl, sameConfig_setCount _ _, by simp⟩

lemma step_retire (options : Option QuestionsOptions) (e : Ctx) (q : Question)
    (rest : List Question) (n : Nat)
    (hs : successfulFor options q e)
    (hh : q._handler = some ())
    (hr : q._repeater = some (Repeater.fin n))
    (hge1 : n ≤ q.implementedHandler + 1) :
    (checkContext e (some (q :: rest)) options).entry =
      (if rest.isEmpty then none else some rest) := by
  obtain ⟨hg, hm, hcf, hcr, hf⟩ := hs
  rw [checkContext_noGlobal e q rest options hg, checkHead_pass e q rest hm hcf hcr hf]
  by_cases hc : (!q.implementedDoBefore && q._doBefore.isSome) = true
  · rw [if_pos hc, processAnswer_fin_retire _ _ _ n (by simpa using hh) (by simpa using hr)
      (by simpa using hge1)]
    show (clearQuestions _).1 = _
    rw [clearQuestions_cons]
    cases rest <;> simp
  · rw [if_neg hc, processAnswer_fin_retire _ _ _ n hh hr hge1]
    show (clearQuestions _).1 = _
    rw [clearQuestions_cons]
    cases rest <;> simp

lemma runEvents_finite_aux (options : Option QuestionsOptions) (rest : List Question)
    (es : List Ctx) :
    ∀ (q : Question) (n : Nat),
      q._repeater = some (Repeater.fin n) →
      q._handler = some () →
      q.implementedHandler < n →
      (∀ e ∈ es, successfulFor options q e) →
      ((q.implementedHandler + es.length < n →
          ∃ p, (runEvents options (some (q :: rest)) es).1 = some (p :: rest) ∧
            sameConfig p q ∧ p.implementedHandler = q.implementedHandler + es.length) ∧
       (q.implementedHandler + es.length = n →
          (runEvents options (some (q :: rest)) es).1 =
            (if rest.isEmpty then none else some rest))) := by
  induction es with
  | nil =>
    intro q n hr hh hlt hsucc
    constructor
    · intro _
      exact ⟨q, by simp [runEvents_nil], sameConfig_refl q, by simp⟩
    · intro h
      simp at h
      omega
  | cons e es ih =>
    intro q n hr hh hlt hsucc
    have hse : successfulFor options q e := hsucc e (List.mem_cons_self e es)
    rcases Nat.lt_or_ge (q.implementedHandler + 1) n with hlt1 | hge1
    · obtain ⟨q2, hq2, hcfg, hcount⟩ := step_stay options e q rest n hse hh hr hlt1
      obtain ⟨c1, c2, c3, c4, c5, c6, c7⟩ := hcfg
      have hih := ih q2 n (c4.trans hr) (c2.trans hh) (by omega)
        (fun e2 he2 => successfulFor_congr options e2 ⟨c1, c2, c3, c4, c5, c6, c7⟩
          (hsucc e2 (List.mem_cons_of_mem e he2)))
      have hrw : (runEvents options (some (q :: rest)) (e :: es)).1 =
          (runEvents options (some (q2 :: rest)) es).1 := by
        rw [runEvents_cons, hq2]
      constructor
      · intro hlen
        simp only [List.length_cons] at hlen
        obtain ⟨p, hp1, hp2, hp3⟩ := hih.1 (by omega)
        refine ⟨p, hrw.trans hp1, sameConfig_trans hp2 ⟨c1, c2, c3, c4, c5, c6, c7⟩, ?_⟩
        simp only [List.length_cons]
        omega
      · intro hlen
        simp only [List.length_cons] at hlen
        rw [hrw]
        exact hih.2 (by omega)
    · have hretire := step_retire options e q rest n hse hh hr hge1
      constructor
      · intro hlen
        simp only [List.length_cons] at hlen
        omega
      · intro hlen
        simp only [List.length_cons] at hlen
        have hes : es = [] := List.length_eq_zero.mp (by omega)
        subst hes
        rw [runEvents_cons, hretire, runEvents_nil]

/-- Claim C1 (code bug): the global admission filter declared and documented
in QuestionsOptions is never consulted by checkContext.  At a concrete input
where the filter is configured and rejects every event, the decision
procedure nevertheless runs the answer handler, mutates the registry entry
and does not pass the event through, contradicting the documented contract
that a false filter skips question processing. -/
theorem global_admission_filter_ignored :
    oC1.filter = some (fun _ => false) ∧
    (checkContext eC1 (some [qC1]) (some oC1)).trace = [Act.handlerRun, Act.deleteKey] ∧
    (checkContext eC1 (some [qC1]) (some oC1)).entry = none ∧
    Act.nextRun ∉ (checkContext eC1 (some [qC1]) (some oC1)).trace :=
  ⟨rfl, by decide, by rfl, by decide⟩

/-- Claim C4 counterexample: the claim states that on a firing global cancel
rule the onCancel callback runs first and the registry entry is deleted
afterwards; at this concrete input the code deletes the entry first and runs
onCancel second, so the claimed action order is false. -/
theorem global_cancel_order_counterexample :
    (checkContext eC4 (some [qC4]) (some oC4)).trace = [Act.deleteKey, Act.onCancelRun] ∧
    (checkContext eC4 (some [qC4]) (some oC4)).trace ≠ [Act.onCancelRun, Act.deleteKey] := by
  decide

/-- Claim C4 (amended): when the global cancel rule fires on an event for a
key with a pending entry, the decision procedure deletes the registry entry
for the key, then runs the global onCancel callback (if present), and stops:
no later step runs, including the head-question matcher check, the
question-level cancel check, the pre-step, the answer handler and the
pass-through to the host chain. -/
theorem global_cancel_deletes_then_onCancel
    (o : QuestionsOptions) (c : CancelOpts) (e : Ctx) (qs : List Question)
    (hc : o.cancel = some c)
    (hfire : globalCancelCond e (some o) = true) :
    checkContext e (some qs) (some o) =
      { threw := false
        entry := none
        trace := Act.deleteKey :: (if c.onCancel.isSome then [Act.onCancelRun] else []) } ∧
    Act.handlerRun ∉ (checkContext e (some qs) (some o)).trace ∧
    Act.doBeforeRun ∉ (checkContext e (some qs) (some o)).trace ∧
    Act.nextRun ∉ (checkContext e (some qs) (some o)).trace := by
  have h1 : checkContext e (some qs) (some o) =
      { threw := false
        entry := none
        trace := Act.deleteKey :: (if c.onCancel.isSome then [Act.onCancelRun] else []) } := by
    rw [checkContext_global e qs (some o) hfire]
    simp [hc]
  refine ⟨h1, ?_, ?_, ?_⟩ <;>
    (rw [h1]; by_cases hoc : c.onCancel.isSome = true <;> simp [hoc])

/-- Claim C4 witness at a concrete input. -/
theorem global_cancel_deletes_then_onCancel_witness :
    checkContext eC4 (some [qC4]) (some oC4) =
      { threw := false
        entry := none
        trace := Act.deleteKey :: (if cC4.onCancel.isSome then [Act.onCancelRun] else []) } ∧
    Act.handlerRun ∉ (checkContext eC4 (some [qC4]) (some oC4)).trace ∧
    Act.doBeforeRun ∉ (checkContext eC4 (some [qC4]) (some oC4)).trace ∧
    Act.nextRun ∉ (checkContext eC4 (some [qC4]) (some oC4)).trace :=
  global_cancel_deletes_then_onCancel oC4 cC4 eC4 [qC4] rfl (by decide)

/-- Claim C5: when the head question's cancel predicate fires on a matching
event (and the global cancel rule does not), the whole registry entry for
the key is deleted, including every queued question behind the head, the
answer handler does not run, and no callback of any question fires: the
trace is exactly the delete. -/
theorem cancelPredicate_deletes_whole_entry
    (options : Option QuestionsOptions) (e : Ctx) (q : Question) (rest : List Question)
    (hg : globalCancelCond e options = false)
    (hm : ctxHas e q.query = true)
    (hcf : predFires q._cancelFunc e = true) :
    checkContext e (some (q :: rest)) options =
      { threw := false, entry := none, trace := [Act.deleteKey] } := by
  rw [checkContext_noGlobal e q rest options hg, checkHead_cancelFunc e q rest hm hcf]

/-- Claim C5 witness: the entry holding a second queued question is deleted
whole, with no callback invoked. -/
theorem cancelPredicate_deletes_whole_entry_witness :
    checkContext eC5 (some [qC5, qC5b]) none =
      { threw := false, entry := none, trace := [Act.deleteKey] } :=
  cancelPredicate_deletes_whole_entry none eC5 qC5 [qC5b] rfl rfl (by decide)

/-- Claim C6: a matching event on which the head question's validation
filter evaluates false changes nothing: the registry entry is returned
unmodified (flags and counters untouched), no handler, pre-step or
retirement action appears in the trace, and control passes to the host
chain. -/
theorem validationFilter_false_is_pure_passthrough
    (options : Option QuestionsOptions) (e : Ctx) (q : Question) (rest : List Question)
    (hg : globalCancelCond e options = false)
    (hm : ctxHas e q.query = true)
    (hcf : predFires q._cancelFunc e = false)
    (hcr : predFires q._cancelRepeater e = false)
    (hf : filterPasses q._filter e = false) :
    checkContext e (some (q :: rest)) options =
      { threw := false, entry := some (q :: rest), trace := [Act.nextRun] } := by
  rw [checkContext_noGlobal e q rest options hg, checkHead_filterFail e q rest hm hcf hcr hf]

/-- Claim C6 witness at a concrete input. -/
theorem validationFilter_false_is_pure_passthrough_witness :
    checkContext eC6 (some [qC6]) none =
      { threw := false, entry := some [qC6], trace := [Act.nextRun] } :=
  validationFilter_false_is_pure_passthrough none eC6 qC6 [] rfl rfl rfl rfl (by decide)

/-- Claim C8: a head question with no answer handler that reaches the answer
step (matched, not cancelled, filter passed) makes the decision procedure
throw rather than silently succeed, and neither a handler invocation nor a
pass-through appears in the trace. -/
theorem absent_handler_fails_loudly
    (options : Option QuestionsOptions) (e : Ctx) (q : Question) (rest : List Question)
    (hg : globalCancelCond e options = false)
    (hm : ctxHas e q.query = true)
    (hcf : predFires q._cancelFunc e = false)
    (hcr : predFires q._cancelRepeater e = false)
    (hf : filterPasses q._filter e = true)
    (hh : q._handler = none) :
    (checkContext e (some (q :: rest)) options).threw = true ∧
    Act.handlerRun ∉ (checkContext e (some (q :: rest)) options).trace ∧
    Act.nextRun ∉ (checkContext e (some (q :: rest)) options).trace := by
  rw [checkContext_noGlobal e q rest options hg, checkHead_pass e q rest hm hcf hcr hf]
  by_cases hc : (!q.implementedDoBefore && q._doBefore.isSome) = true
  · rw [if_pos hc, processAnswer_noHandler _ _ _ (by simpa using hh)]
    exact ⟨rfl, by simp, by simp⟩
  · rw [if_neg hc, processAnswer_noHandler _ _ _ hh]
    exact ⟨rfl, by simp, by simp⟩

/-- Claim C8 witness at a concrete input. -/
theorem absent_handler_fails_loudly_witness :
    (checkContext eC8 (some [qC8]) none).threw = true ∧
    Act.handlerRun ∉ (checkContext eC8 (some [qC8]) none).trace ∧
    Act.nextRun ∉ (checkContext eC8 (some [qC8]) none).trace :=
  absent_handler_fails_loudly none eC8 qC8 [] rfl rfl rfl rfl rfl rfl

/-- Claim C10: the registration entry point called with the empty list
throws (the property access on the absent first element) before the
registry is touched: the entry at the key is whatever it was before, and
no action is performed. -/
theorem ask_empty_list_faults_without_install (old : Option (List Question)) :
    (ask [] old).threw = true ∧ (ask [] old).entry = old ∧ (ask [] old).trace = [] :=
  ⟨rfl, rfl, rfl⟩

/-- Claim C2: for a head question with finite repeat count n (n positive)
and answered count 0, any run of fewer than n successful (filtered-in,
non-cancelled) matching events leaves the question at the head with its
count equal to the number of events, the n-th such event retires it (the
entry becomes the remaining queue, or is deleted when the queue empties),
and a further event is then evaluated against the next question in the
list, or passes through to the host chain when the queue is empty. -/
theorem finite_repeat_requires_exactly_n
    (options : Option QuestionsOptions) (q : Question) (rest : List Question)
    (n : Nat) (es : List Ctx)
    (hr : q._repeater = some (Repeater.fin n))
    (hh : q._handler = some ())
    (h0 : q.implementedHandler = 0)
    (hn : 0 < n)
    (hsucc : ∀ e ∈ es, successfulFor options q e) :
    (es.length < n →
      ∃ p, (runEvents options (some (q :: rest)) es).1 = some (p :: rest) ∧
        sameConfig p q ∧ p.implementedHandler = es.length) ∧
    (es.length = n →
      (runEvents options (some (q :: rest)) es).1 = (if rest.isEmpty then none else some rest) ∧
      (rest.isEmpty = true →
        ∀ e2, checkContext e2 (runEvents options (some (q :: rest)) es).1 options =
          { threw := false, entry := none, trace := [Act.nextRun] }) ∧
      (∀ r0 rtail, rest = r0 :: rtail →
        ∀ e2, globalCancelCond e2 options = false →
          checkContext e2 (runEvents options (some (q :: rest)) es).1 options =
            checkHead e2 r0 rtail)) := by
  have haux := runEvents_finite_aux options rest es q n hr hh (by omega) hsucc
  rw [h0] at haux
  constructor
  · intro hlen
    obtain ⟨p, hp1, hp2, hp3⟩ := haux.1 (by omega)
    exact ⟨p, hp1, hp2, by omega⟩
  · intro hlen
    have h2 := haux.2 (by omega)
    refine ⟨h2, ?_, ?_⟩
    · intro hrest e2
      rw [h2]
      simp only [hrest, if_true]
      exact checkContext_none e2 options
    · intro r0 rtail hrest e2 hg2
      rw [h2]
      subst hrest
      simp only [List.isEmpty_cons, if_false]
      exact checkContext_noGlobal e2 r0 rtail options hg2

/-- Claim C2 witness: with repeat count 2, two successful events retire the
question and delete the singleton entry, after which a further event passes
through. -/
theorem finite_repeat_requires_exactly_n_witness :
    (runEvents none (some [qC2]) [eC2a, eC2b]).1 = none ∧
    checkContext eC2b (runEvents none (some [qC2]) [eC2a, eC2b]).1 none =
      { threw := false, entry := none, trace := [Act.nextRun] } := by
  have h := finite_repeat_requires_exactly_n none qC2 [] 2 [eC2a, eC2b]
    rfl rfl rfl (by omega) (by decide)
  have h2 := h.2 rfl
  exact ⟨by simpa using h2.1, h2.2.1 rfl eC2b⟩

/-- Claim C3: an infinite-mode head question never retires from a count: on
any matching, non-cancelled event, if the repeat-until predicate fires the
head is retired (removed, the rest of the queue kept, the key deleted when
the queue empties) with no handler and no pre-step invocation, that
evaluation substituting for the handler; and if it does not fire the head
question stays at the head of the queue whatever else happens. -/
theorem infinite_mode_retires_by_repeatUntil
    (options : Option QuestionsOptions) (e : Ctx) (q : Question) (rest : List Question)
    (hg : globalCancelCond e options = false)
    (hm : ctxHas e q.query = true)
    (hcf : predFires q._cancelFunc e = false)
    (hr : q._repeater = some Repeater.inf) :
    (predFires q._cancelRepeater e = true →
      (checkContext e (some (q :: rest)) options).entry = (if rest.isEmpty then none else some rest) ∧
      Act.handlerRun ∉ (checkContext e (some (q :: rest)) options).trace ∧
      Act.doBeforeRun ∉ (checkContext e (some (q :: rest)) options).trace) ∧
    (predFires q._cancelRepeater e = false →
      ∃ p, (checkContext e (some (q :: rest)) options).entry = some (p :: rest) ∧ sameConfig p q) := by
  constructor
  · intro hcr
    rw [checkContext_noGlobal e q rest options hg,
      checkHead_cancelRepeater e q rest hm hcf hcr, clearQuestions_cons]
    cases rest <;> simp
  · intro hcr
    rw [checkContext_noGlobal e q rest options hg]
    by_cases hf : filterPasses q._filter e = true
    · rw [checkHead_pass e q rest hm hcf hcr hf]
      by_cases hc : (!q.implementedDoBefore && q._doBefore.isSome) = true
      · rw [if_pos hc]
        rcases Option.eq_none_or_eq_some q._handler with hhv | ⟨u, hhv⟩
        · rw [processAnswer_noHandler _ _ _
            (show ({ q with implementedDoBefore := true } : Question)._handler = none from hhv)]
          exact ⟨_, rfl, sameConfig_setFlag q true⟩
        · rw [processAnswer_inf _ _ _
            (show ({ q with implementedDoBefore := true } : Question)._handler = some () from hhv) hr]
          exact ⟨_, rfl, sameConfig_trans (sameConfig_setCount _ _) (sameConfig_setFlag _ _)⟩
      · rw [if_neg hc]
        rcases Option.eq_none_or_eq_some q._handler with hhv | ⟨u, hhv⟩
        · rw [processAnswer_noHandler _ _ _ hhv]
          exact ⟨q, rfl, sameConfig_refl q⟩
        · rw [processAnswer_inf _ _ _ (show q._handler = some () from hhv) hr]
          exact ⟨_, rfl, sameConfig_setCount _ _⟩
    · rw [checkHead_filterFail e q rest hm hcf hcr (by simpa using hf)]
      exact ⟨q, rfl, sameConfig_refl q⟩

/-- Claim C3 witness: the stopping event deletes the singleton entry with
no handler invocation, while a non-stopping event keeps the question at the
head. -/
theorem infinite_mode_retires_by_repeatUntil_witness :
    ((checkContext eC3done (some [qC3]) none).entry = (if ([] : List Question).isEmpty then none else some []) ∧
      Act.handlerRun ∉ (checkContext eC3done (some [qC3]) none).trace ∧
      Act.doBeforeRun ∉ (checkContext eC3done (some [qC3]) none).trace) ∧
    (∃ p, (checkContext eC3more (some [qC3]) none).entry = some (p :: []) ∧ sameConfig p qC3) :=
  ⟨(infinite_mode_retires_by_repeatUntil none eC3done qC3 [] rfl rfl rfl rfl).1 (by decide),
   (infinite_mode_retires_by_repeatUntil none eC3more qC3 [] rfl rfl rfl rfl).2 (by decide)⟩

/-- Claim C9 counterexample: calling repeat 2 after repeatUntil leaves the
question in finite mode with the repeat-until predicate still installed; at
a concrete event firing that predicate the finite-mode question is removed
with its count still 0 and no handler run, so a finite-mode question does
not retire only by count. -/
theorem repeat_after_repeatUntil_counterexample :
    qC9._repeater = some (Repeater.fin 2) ∧
    qC9.implementedHandler = 0 ∧
    (checkContext eC9 (some [qC9]) none).entry = none ∧
    Act.handlerRun ∉ (checkContext eC9 (some [qC9]) none).trace :=
  ⟨rfl, rfl, rfl, by decide⟩

/-- Claim C9 (amended): an infinite-mode question always carries its
repeat-until predicate, whatever builder calls produced it; a finite-mode
question with no leftover repeat-until predicate loses its head position
only through count retirement (the handler ran and the count reached the
repeat count); and an infinite-mode question retires exactly when its
predicate fires, never by count.  However, repeat n called after
repeatUntil leaves the predicate installed on a finite-mode question, which
can therefore also retire through it. -/
theorem repeat_mode_governs_retirement :
    (∀ (query0 : List String) (cs : List BuilderCall),
      (applyCalls (Question.new query0) cs)._repeater = some Repeater.inf →
      (applyCalls (Question.new query0) cs)._cancelRepeater.isSome = true) ∧
    (∀ (options : Option QuestionsOptions) (e : Ctx) (q : Question)
        (rest : List Question) (n : Nat),
      globalCancelCond e options = false →
      ctxHas e q.query = true →
      predFires q._cancelFunc e = false →
      q._repeater = some (Repeater.fin n) →
      q._cancelRepeater = none →
      ((∃ p, (checkContext e (some (q :: rest)) options).entry = some (p :: rest)) ∨
        (Act.handlerRun ∈ (checkContext e (some (q :: rest)) options).trace ∧
          n ≤ q.implementedHandler + 1 ∧
          (checkContext e (some (q :: rest)) options).entry =
            (if rest.isEmpty then none else some rest)))) ∧
    (∀ (options : Option QuestionsOptions) (e : Ctx) (q : Question) (rest : List Question),
      globalCancelCond e options = false →
      ctxHas e q.query = true →
      predFires q._cancelFunc e = false →
      q._repeater = some Repeater.inf →
      ((predFires q._cancelRepeater e = true →
          (checkContext e (some (q :: rest)) options).entry =
            (if rest.isEmpty then none else some rest) ∧
          Act.handlerRun ∉ (checkContext e (some (q :: rest)) options).trace) ∧
       (predFires q._cancelRepeater e = false →
          ∃ p, (checkContext e (some (q :: rest)) options).entry = some (p :: rest)))) := by
  refine ⟨?_, ?_, ?_⟩
  · intro query0 cs
    induction cs using List.reverseRecOn with
    | nil => intro h; exact absurd h (by simp [applyCalls, Question.new])
    | append_singleton cs c ih =>
      intro h
      rw [applyCalls, List.foldl_append, List.foldl_cons, List.foldl_nil] at h ⊢
      cases c with
      | thenDo f => exact ih h
      | doBefore f => exact ih h
      | repeatN n => exact absurd h (by simp [applyCall, Question.repeat])
      | filter f => exact ih h
      | cancel f => exact ih h
      | repeatUntil f => simp [applyCall, Question.repeatUntil]
  · intro options e q rest n hg hm hcf hrep hcrnone
    rw [checkContext_noGlobal e q rest options hg]
    have hcr : predFires q._cancelRepeater e = false := by simp [predFires, hcrnone]
    by_cases hf : filterPasses q._filter e = true
    · rw [checkHead_pass e q rest hm hcf hcr hf]
      by_cases hc : (!q.implementedDoBefore && q._doBefore.isSome) = true
      · rw [if_pos hc]
        rcases Option.eq_none_or_eq_some q._handler with hhv | ⟨u, hhv⟩
        · rw [processAnswer_noHandler _ _ _
            (show ({ q with implementedDoBefore := true } : Question)._handler = none from hhv)]
          exact Or.inl ⟨_, rfl⟩
        · by_cases hge : n ≤ q.implementedHandler + 1
          · rw [processAnswer_fin_retire _ _ _ n
              (show ({ q with implementedDoBefore := true } : Question)._handler = some () from hhv)
              (show ({ q with implementedDoBefore := true } : Question)._repeater = some (Repeater.fin n) from hrep)
              (show n ≤ ({ q with implementedDoBefore := true } : Question).implementedHandler + 1 from hge)]
            refine Or.inr ⟨by simp, hge, ?_⟩
            show (clearQuestions _).1 = _
            rw [clearQuestions_cons]
            cases rest <;> simp
          · rw [processAnswer_fin_stay _ _ _ n
              (show ({ q with implementedDoBefore := true } : Question)._handler = some () from hhv)
              (show ({ q with implementedDoBefore := true } : Question)._repeater = some (Repeater.fin n) from hrep)
              (show q.implementedHandler + 1 < n by omega)]
            exact Or.inl ⟨_, rfl⟩
      · rw [if_neg hc]
        rcases Option.eq_none_or_eq_some q._handler with hhv | ⟨u, hhv⟩
        · rw [processAnswer_noHandler _ _ _ hhv]
          exact Or.inl ⟨q, rfl⟩
        · by_cases hge : n ≤ q.implementedHandler + 1
          · rw [processAnswer_fin_retire _ _ _ n (show q._handler = some () from hhv) hrep hge]
            refine Or.inr ⟨by simp, hge, ?_⟩
            show (clearQuestions _).1 = _
            rw [clearQuestions_cons]
            cases rest <;> simp
          · rw [processAnswer_fin_stay _ _ _ n (show q._handler = some () from hhv) hrep (by omega)]
            exact Or.inl ⟨_, rfl⟩
    · rw [checkHead_filterFail e q rest hm hcf hcr (by simpa using hf)]
      exact Or.inl ⟨q, rfl⟩
  · intro options e q rest hg hm hcf hrep
    constructor
    · intro hcr
      rw [checkContext_noGlobal e q rest options hg,
        checkHead_cancelRepeater e q rest hm hcf hcr, clearQuestions_cons]
      cases rest <;> simp
    · intro hcr
      rw [checkContext_noGlobal e q rest options hg]
      by_cases hf : filterPasses q._filter e = true
      · rw [checkHead_pass e q rest hm hcf hcr hf]
        by_cases hc : (!q.implementedDoBefore && q._doBefore.isSome) = true
        · rw [if_pos hc]
          rcases Option.eq_none_or_eq_some q._handler with hhv | ⟨u, hhv⟩
          · rw [processAnswer_noHandler _ _ _
              (show ({ q with implementedDoBefore := true } : Question)._handler = none from hhv)]
            exact ⟨_, rfl⟩
          · rw [processAnswer_inf _ _ _
              (show ({ q with implementedDoBefore := true } : Question)._handler = some () from hhv) hrep]
            exact ⟨_, rfl⟩
        · rw [if_neg hc]
          rcases Option.eq_none_or_eq_some q._handler with hhv | ⟨u, hhv⟩
          · rw [processAnswer_noHandler _ _ _ hhv]
            exact ⟨q, rfl⟩
          · rw [processAnswer_inf _ _ _ (show q._handler = some () from hhv) hrep]
            exact ⟨_, rfl⟩
      · rw [checkHead_filterFail e q rest hm hcf hcr (by simpa using hf)]
        exact ⟨q, rfl⟩

/-- Claim C9 witness: a plain finite-mode question with repeat count 2 at
count 0 keeps its head position on a successful event. -/
theorem repeat_mode_governs_retirement_witness :
    (∃ p, (checkContext eC9b (some [qC9b]) none).entry = some (p :: [])) ∨
      (Act.handlerRun ∈ (checkContext eC9b (some [qC9b]) none).trace ∧
        2 ≤ qC9b.implementedHandler + 1 ∧
        (checkContext eC9b (some [qC9b]) none).entry =
          (if ([] : List Question).isEmpty then none else some [])) :=
  repeat_mode_governs_retirement.2.1 none eC9b qC9b [] 2 rfl rfl rfl rfl rfl

lemma runEvents_none (options : Option QuestionsOptions) (es : List Ctx) :
    (runEvents options none es).1 = none ∧
    (runEvents options none es).2.count Act.doBeforeRun = 0 := by
  induction es with
  | nil => exact ⟨rfl, rfl⟩
  | cons e es ih =>
    have hrw1 : (runEvents options none (e :: es)).1 = (runEvents options none es).1 := by
      rw [runEvents_cons, checkContext_none]
    have hrw2 : (runEvents options none (e :: es)).2 =
        [Act.nextRun] ++ (runEvents options none es).2 := by
      rw [runEvents_cons, checkContext_none]
    constructor
    · rw [hrw1]; exact ih.1
    · rw [hrw2, List.count_append]
      simp [List.count_cons, ih.2]

lemma step_no_doBefore (options : Option QuestionsOptions) (e : Ctx) (x : Question)
    (rest : List Question)
    (hx : x.implementedDoBefore = true ∨ x._doBefore = none) :
    Act.doBeforeRun ∉ (checkContext e (some (x :: rest)) options).trace := by
  by_cases hg : globalCancelCond e options = true
  · rw [checkContext_global e (x :: rest) options hg]
    by_cases h2 : ((options.bind (fun o => o.cancel)).bind (fun c => c.onCancel)).isSome = true <;>
      simp [h2]
  · rw [checkContext_noGlobal e x rest options (by simpa using hg)]
    by_cases hm : ctxHas e x.query = true
    · by_cases hcf : predFires x._cancelFunc e = true
      · rw [checkHead_cancelFunc e x rest hm hcf]; simp
      · have hcf2 : predFires x._cancelFunc e = false := by simpa using hcf
        by_cases hcr : predFires x._cancelRepeater e = true
        · rw [checkHead_cancelRepeater e x rest hm hcf2 hcr, clearQuestions_cons]
          cases rest <;> simp
        · have hcr2 : predFires x._cancelRepeater e = false := by simpa using hcr
          by_cases hf : filterPasses x._filter e = true
          · rw [checkHead_pass e x rest hm hcf2 hcr2 hf]
            have hc : (!x.implementedDoBefore && x._doBefore.isSome) = false := by
              rcases hx with h | h <;> simp [h]
            rw [if_neg (by simp [hc])]
            rcases Option.eq_none_or_eq_some x._handler with hhv | ⟨u, hhv⟩
            · rw [processAnswer_noHandler _ _ _ hhv]; simp
            · have hh : x._handler = some () := hhv
              rcases Option.eq_none_or_eq_some x._repeater with hrv | ⟨rp, hrv⟩
              · rw [processAnswer_default _ _ _ hh hrv, clearQuestions_cons]
                cases rest <;> simp
              · cases rp with
                | inf => rw [processAnswer_inf _ _ _ hh hrv]; simp
                | fin n =>
                  by_cases hge : n ≤ x.implementedHandler + 1
                  · rw [processAnswer_fin_retire _ _ _ n hh hrv hge, clearQuestions_cons]
                    cases rest <;> simp
                  · rw [processAnswer_fin_stay _ _ _ n hh hrv (by omega)]
                    simp
          · rw [checkHead_filterFail e x rest hm hcf2 hcr2 (by simpa using hf)]
            simp
    · rw [checkHead_nomatch e x rest (by simpa using hm)]
      simp

lemma step_single_entry (options : Option QuestionsOptions) (e : Ctx) (x : Question)
    (hx : x.implementedDoBefore = true ∨ x._doBefore = none) :
    (checkContext e (some [x]) options).entry = none ∨
      ∃ y, (checkContext e (some [x]) options).entry = some [y] ∧
        (y.implementedDoBefore = true ∨ y._doBefore = none) := by
  by_cases hg : globalCancelCond e options = true
  · rw [checkContext_global e [x] options hg]
    exact Or.inl rfl
  · rw [checkContext_noGlobal e x [] options (by simpa using hg)]
    by_cases hm : ctxHas e x.query = true
    · by_cases hcf : predFires x._cancelFunc e = true
      · rw [checkHead_cancelFunc e x [] hm hcf]
        exact Or.inl rfl
      · have hcf2 : predFires x._cancelFunc e = false := by simpa using hcf
        by_cases hcr : predFires x._cancelRepeater e = true
        · rw [checkHead_cancelRepeater e x [] hm hcf2 hcr, clearQuestions_cons]
          exact Or.inl (by simp)
        · have hcr2 : predFires x._cancelRepeater e = false := by simpa using hcr
          by_cases hf : filterPasses x._filter e = true
          · rw [checkHead_pass e x [] hm hcf2 hcr2 hf]
            have hc : (!x.implementedDoBefore && x._doBefore.isSome) = false := by
              rcases hx with h | h <;> simp [h]
            rw [if_neg (by simp [hc])]
            rcases Option.eq_none_or_eq_some x._handler with hhv | ⟨u, hhv⟩
            · rw [processAnswer_noHandler _ _ _ hhv]
              exact Or.inr ⟨x, rfl, hx⟩
            · have hh : x._handler = some () := hhv
              rcases Option.eq_none_or_eq_some x._repeater with hrv | ⟨rp, hrv⟩
              · rw [processAnswer_default _ _ _ hh hrv, clearQuestions_cons]
                exact Or.inl (by simp)
              · cases rp with
                | inf =>
                  rw [processAnswer_inf _ _ _ hh hrv]
                  exact Or.inr ⟨_, rfl, hx⟩
                | fin n =>
                  by_cases hge : n ≤ x.implementedHandler + 1
                  · rw [processAnswer_fin_retire _ _ _ n hh hrv hge, clearQuestions_cons]
                    exact Or.inl (by simp)
                  · rw [processAnswer_fin_stay _ _ _ n hh hrv (by omega)]
                    exact Or.inr ⟨_, rfl, hx⟩
          · rw [checkHead_filterFail e x [] hm hcf2 hcr2 (by simpa using hf)]
            exact Or.inr ⟨x, rfl, hx⟩
    · rw [checkHead_nomatch e x [] (by simpa using hm)]
      exact Or.inr ⟨x, rfl, hx⟩

lemma single_question_lazy_aux (options : Option QuestionsOptions) (es : List Ctx) :
    ∀ (x : Question), (x.implementedDoBefore = true ∨ x._doBefore = none) →
      (runEvents options (some [x]) es).2.count Act.doBeforeRun = 0 := by
  induction es with
  | nil => intro x hx; rfl
  | cons e es ih =>
    intro x hx
    have hcount : (checkContext e (some [x]) options).trace.count Act.doBeforeRun = 0 :=
      List.count_eq_zero.mpr (step_no_doBefore options e x [] hx)
    have hrw : (runEvents options (some [x]) (e :: es)).2 =
        (checkContext e (some [x]) options).trace ++
          (runEvents options (checkContext e (some [x]) options).entry es).2 := by
      rw [runEvents_cons]
    rw [hrw, List.count_append, hcount]
    rcases step_single_entry options e x hx with h | ⟨y, hy, hyp⟩
    · rw [h, (runEvents_none options es).2]
    · rw [hy, ih y hyp]

/-- Claim C7 counterexample: the registration entry point runs the first
question's pre-step unconditionally whenever one is configured, without
consulting the implementedDoBefore flag; registering the instance, whose
flag is then already true, a second time runs the pre-step again, so the
pre-step runs twice over the instance's lifetime. -/
theorem preStep_reregistration_counterexample :
    (ask [qC7] none).trace.count Act.doBeforeRun = 1 ∧
    ((ask [qC7] none).entry.getD []).all (fun p => p.implementedDoBefore) = true ∧
    (ask ((ask [qC7] none).entry.getD []) (ask [qC7] none).entry).trace.count Act.doBeforeRun = 1 :=
  ⟨by decide, by decide, by decide⟩

/-- Claim C7 (amended): within a single registration lifetime of a lone
question (one ask, then any sequence of inbound events) the pre-step runs
exactly once when configured and never otherwise, because the lazy
decision-procedure path is guarded by the implementedDoBefore flag which
the eager registration run sets; and in general no decision-procedure step
on a head question whose flag is already set ever runs the pre-step.
Re-registering the same instance, however, re-runs it (see the
counterexample). -/
theorem preStep_at_most_once_per_registration :
    (∀ (options : Option QuestionsOptions) (q : Question) (events : List Ctx),
      ((ask [q] none).trace ++ (runEvents options (ask [q] none).entry events).2).count Act.doBeforeRun =
        (if q._doBefore.isSome then 1 else 0)) ∧
    (∀ (options : Option QuestionsOptions) (e : Ctx) (x : Question) (rest : List Question),
      x.implementedDoBefore = true →
      Act.doBeforeRun ∉ (checkContext e (some (x :: rest)) options).trace) := by
  constructor
  · intro options q events
    rcases Option.eq_none_or_eq_some q._doBefore with hdb | ⟨u, hdb⟩
    · have hask : ask [q] none =
          { threw := false, entry := some [q], trace := [Act.setKey] } := by
        simp [ask, hdb]
      rw [hask, List.count_append]
      rw [show (runEvents options (some [q]) events).2.count Act.doBeforeRun = 0 from
        single_question_lazy_aux options events q (Or.inr hdb)]
      simp [hdb]
    · have hask : ask [q] none =
          { threw := false
            entry := some [{ q with implementedDoBefore := true }]
            trace := [Act.doBeforeRun, Act.setKey] } := by
        simp [ask, hdb]
      rw [hask, List.count_append]
      rw [show (runEvents options (some [{ q with implementedDoBefore := true }]) events).2.count
          Act.doBeforeRun = 0 from
        single_question_lazy_aux options events { q with implementedDoBefore := true } (Or.inl rfl)]
      simp [hdb]
  · intro options e x rest hflag
    exact step_no_doBefore options e x rest (Or.inl hflag)

/-- Claim C7 witness: a head question whose flag is set does not run the
pre-step on a further matching event. -/
theorem preStep_at_most_once_per_registration_witness :
    Act.doBeforeRun ∉
      (checkContext eC8 (some [{ qC7 with implementedDoBefore := true }]) none).trace :=
  preStep_at_most_once_per_registration.2 none eC8 { qC7 with implementedDoBefore := true } [] rfl
